import Mathlib

/-!
Shallow embedding of the fetch-cache-aggregate engine of `src/azure_service.py`
(class `AzurePolicyService` and helper `RetryWithBackoff`), together with
theorems checking the natural-language specification against it.

Modelling conventions:
* Python dict records become Lean structures; values that the source guards
  with `getattr(..., None)` or `x or []` become `Option` fields.
* Fields the source reads without a guard (`resource_type.resource_type`,
  `alias.name`, and a provider namespace once it passed the `not namespace`
  check) are modelled as plain `String`, matching the collaborator interface
  and the repository's own pydantic model (`main.py`, class `PolicyAlias`:
  `namespace`, `resource_type`, `alias_name` are required `str`).
* `datetime.now()` timestamps and `timedelta` durations are seconds as `ℤ`;
  retry delays (`base_delay * 2**attempt`, floats) are `ℚ`.
* The thread-pool fan-out of `_fetch_aliases_sync` completes its units of
  work in an arbitrary order; we model the completion order as the listing
  order (one admissible schedule).
* The remote client (`self.client.providers.list/get`) is out of scope for
  the repository; its results enter as parameters (`listing`, `get`).
-/

/-- The `default_pattern` dict built at `azure_service.py:207-211`:
`{"phrase": ..., "variable": ..., "type": ...}`, each via `getattr(..., None)`.
The same shape models the remote `pattern_obj` it is copied from. -/
structure AliasPattern where
  phrase : Option String
  variable_ : Option String
  type : Option String
deriving DecidableEq, Repr

/-- A remote alias object, as accessed by the flattening loop
(`azure_service.py:203-222`): `alias.name` is read unguarded, the other
fields via `getattr`/`hasattr` guards. -/
structure AliasEntry where
  name : String
  default_path : Option String
  default_pattern : Option AliasPattern
  type : Option String
deriving DecidableEq, Repr

/-- A remote resource-type object (`azure_service.py:202-203`):
`resource_type.resource_type` is read unguarded, `resource_type.aliases or []`
guards a possibly-null list. -/
structure ResourceTypeEntry where
  resource_type : String
  aliases : Option (List AliasEntry)
deriving DecidableEq, Repr

/-- The remote provider detail returned by
`client.providers.get(namespace, expand="resourceTypes/aliases")`;
the loop reads `provider.resource_types or []` (`azure_service.py:202`). -/
structure NamespaceDetail where
  resource_types : Option (List ResourceTypeEntry)
deriving DecidableEq, Repr

/-- The alias record dict appended at `azure_service.py:213-222`.
`namespace` is a Lean keyword, hence the trailing underscore. -/
structure PolicyAlias where
  namespace_ : String
  resource_type : String
  alias_name : String
  default_path : Option String
  default_pattern : Option AliasPattern
  type : Option String
deriving DecidableEq, Repr

/-- Result of one `client.providers.get` call inside a unit of work:
success, an `AzureError` (caught locally at `azure_service.py:193-199`),
or any other exception (escapes the unit of work and is caught in the
`as_completed` loop at lines 240-255). Numeric payloads distinguish
individual exception instances. -/
inductive DetailResult where
  | ok (d : NamespaceDetail)
  | azureErr (n : Nat)
  | otherErr (n : Nat)
deriving DecidableEq, Repr

/-- The nested flattening loop of `fetch_provider_aliases`
(`azure_service.py:201-224`): one record per alias of each resource type,
with the pattern sub-object normalised field by field. -/
def flattenProvider (ns : String) (d : NamespaceDetail) : List PolicyAlias :=
  (d.resource_types.getD []).flatMap fun rt =>
    (rt.aliases.getD []).map fun al =>
      { namespace_ := ns
        resource_type := rt.resource_type
        alias_name := al.name
        default_path := al.default_path
        default_pattern := al.default_pattern.map fun p =>
          ⟨p.phrase, p.variable_, p.type⟩
        type := al.type }

/-- A unit of work, `fetch_provider_aliases` (`azure_service.py:184-224`):
skips a falsy namespace, catches `AzureError` from the provider `get`
locally (returning `[]`), and lets any other exception escape
(`Except.error`). -/
def fetch_provider_aliases (get : String → DetailResult) (ns : Option String) :
    Except Nat (List PolicyAlias) :=
  match ns with
  | none => .ok []
  | some s =>
    if s = "" then .ok []
    else
      match get s with
      | .ok d => .ok (flattenProvider s d)
      | .azureErr _ => .ok []
      | .otherErr n => .error n

/-- The accumulator of the fan-out in `_fetch_aliases_sync`
(`azure_service.py:178-180`). -/
structure FetchOut where
  all_aliases : List PolicyAlias
  failed_providers : List String
  providers_with_aliases : Nat
deriving DecidableEq, Repr

/-- One iteration of the `as_completed` loop (`azure_service.py:232-255`):
a successful unit of work extends the accumulator when non-empty; an
exception escaping the unit of work records the namespace into
`failed_providers`. -/
def fetchStep (get : String → DetailResult) (acc : FetchOut) (summary : Option String) :
    FetchOut :=
  match fetch_provider_aliases get summary with
  | .ok provider_aliases =>
    if provider_aliases.isEmpty then acc
    else
      { acc with
        all_aliases := acc.all_aliases ++ provider_aliases
        providers_with_aliases := acc.providers_with_aliases + 1 }
  | .error _ =>
    { acc with failed_providers := acc.failed_providers ++ [summary.getD "unknown"] }

/-- The fan-out of `_fetch_aliases_sync` (`azure_service.py:226-274`) after a
successful `providers.list()`, with completion order modelled as listing
order. It is a total function: no per-namespace failure aborts it. -/
def fetchAliasesSync (listing : List (Option String)) (get : String → DetailResult) :
    FetchOut :=
  listing.foldl (fetchStep get) ⟨[], [], 0⟩

/-- The aliases a namespace summary contributes when its unit of work does
not escape with an exception: the flattened detail on success, nothing on a
skipped or locally-caught-failing namespace. -/
def successAliases (get : String → DetailResult) (ns : Option String) :
    List PolicyAlias :=
  match ns with
  | none => []
  | some s =>
    if s = "" then []
    else
      match get s with
      | .ok d => flattenProvider s d
      | _ => []

/-- The exception classes distinguished by `RetryWithBackoff.execute`
(`azure_service.py:41-60`): `ClientAuthenticationError`, the transient pair
`ServiceRequestError`/`HttpResponseError`, any other exception, and the
generic `Exception("Retry failed")` raised at line 62. Numeric payloads
distinguish instances. -/
inductive PyExc where
  | clientAuth (n : Nat)
  | serviceRequest (n : Nat)
  | httpResponse (n : Nat)
  | otherExc (n : Nat)
  | retryFailed
deriving DecidableEq, Repr

/-- An exception is transient iff the `except (ServiceRequestError,
HttpResponseError)` clause at `azure_service.py:44` catches it. -/
def PyExc.isTransient : PyExc → Bool
  | .serviceRequest _ => true
  | .httpResponse _ => true
  | _ => false

/-- Outcome of one attempt of the retried operation. -/
inductive AttemptResult (α : Type) where
  | ok (a : α)
  | exc (e : PyExc)

/-- What a run of `RetryWithBackoff.execute` did: the value returned or
exception raised, the number of calls made to the operation, and the delays
passed to `asyncio.sleep`, in order. -/
structure ExecTrace (α : Type) where
  result : Except PyExc α
  calls : Nat
  sleeps : List ℚ

/-- The retry loop of `RetryWithBackoff.execute` (`azure_service.py:34-62`),
with the operation modelled as a function from attempt index to outcome.
`remaining` counts loop iterations left out of `max_retries`; the loop
sleeps `base_delay * 2**attempt` only while `attempt < max_retries - 1`,
i.e. while at least one iteration remains after the current one. After the
loop, the last transient exception is re-raised, or the generic failure if
no attempt ever ran. -/
def executeGo (op : Nat → AttemptResult α) (d : ℚ) :
    Nat → Nat → Option PyExc → List ℚ → ExecTrace α
  | 0, attempt, last, sleeps => ⟨.error (last.getD .retryFailed), attempt, sleeps⟩
  | r + 1, attempt, _last, sleeps =>
    match op attempt with
    | .ok a => ⟨.ok a, attempt + 1, sleeps⟩
    | .exc (.clientAuth n) => ⟨.error (.clientAuth n), attempt + 1, sleeps⟩
    | .exc (.serviceRequest n) =>
        executeGo op d r (attempt + 1) (some (.serviceRequest n))
          (if 0 < r then sleeps ++ [d * 2 ^ attempt] else sleeps)
    | .exc (.httpResponse n) =>
        executeGo op d r (attempt + 1) (some (.httpResponse n))
          (if 0 < r then sleeps ++ [d * 2 ^ attempt] else sleeps)
    | .exc e => ⟨.error e, attempt + 1, sleeps⟩

/-- `RetryWithBackoff(max_retries, base_delay).execute(op)`. -/
def retryExecute (maxRetries : Nat) (baseDelay : ℚ) (op : Nat → AttemptResult α) :
    ExecTrace α :=
  executeGo op baseDelay maxRetries 0 none []

/-- The mutable state of `AzurePolicyService` relevant to caching:
`self.cache` (a dict that only ever receives the key `"aliases"`, modelled
by the optional stored list), `self.cache_timestamp`, and
`self.cache_duration` (`azure_service.py:69-71`), in seconds. -/
structure ServiceState where
  cacheAliases : Option (List PolicyAlias)
  cacheTimestamp : Option ℤ
  cacheDuration : ℤ
deriving DecidableEq, Repr

/-- `timedelta(hours=cache_duration_hours)` for the default
`cache_duration_hours = 1` (`azure_service.py:66,71`), in seconds. -/
def defaultCacheDuration : ℤ := 3600

/-- `_is_cache_valid` (`azure_service.py:118-122`): false when
`self.cache_timestamp` is `None` or the cache dict is empty (no `"aliases"`
key was ever stored — an empty *stored list* still makes the dict truthy),
else `now - timestamp < duration`. -/
def isCacheValid (st : ServiceState) (now : ℤ) : Bool :=
  match st.cacheTimestamp, st.cacheAliases with
  | some ts, some _ => decide (now - ts < st.cacheDuration)
  | _, _ => false

/-- What one call to `get_policy_aliases` did: its return value or raised
exception, the state afterwards, and whether the underlying retried fetch
ran. -/
structure GetResult where
  result : Except PyExc (List PolicyAlias)
  state : ServiceState
  fetched : Bool

/-- `get_policy_aliases` (`azure_service.py:124-159`), with the outcome of
the retried fetch (`self.retry_helper.execute(fetch_with_retry)`) passed in
as `fetchOutcome`: a valid cache short-circuits (returning
`self.cache.get("aliases", [])`); a successful fetch replaces the cache and
timestamp; a failed fetch falls back to the stored list only when
`self.cache.get("aliases")` is truthy, i.e. present *and non-empty*, and
re-raises otherwise. -/
def getPolicyAliases (st : ServiceState) (forceRefresh : Bool) (now : ℤ)
    (fetchOutcome : Except PyExc (List PolicyAlias)) : GetResult :=
  if !forceRefresh && isCacheValid st now then
    ⟨.ok (st.cacheAliases.getD []), st, false⟩
  else
    match fetchOutcome with
    | .ok aliases =>
      ⟨.ok aliases,
        { st with cacheAliases := some aliases, cacheTimestamp := some now }, true⟩
    | .error e =>
      match st.cacheAliases with
      | some (a :: rest) => ⟨.ok (a :: rest), st, true⟩
      | _ => ⟨.error e, st, true⟩

/-- `str.lower()`, applied characterwise. -/
def pyLower (s : String) : String := ⟨s.data.map Char.toLower⟩

/-- Helper for `str.split()`: walk the characters keeping the (reversed)
current word, emitting it at each whitespace run and at the end. -/
def wordsAux : List Char → List Char → List (List Char)
  | [], cur => if cur.isEmpty then [] else [cur.reverse]
  | c :: cs, cur =>
    if c.isWhitespace then
      if cur.isEmpty then wordsAux cs [] else cur.reverse :: wordsAux cs []
    else wordsAux cs (c :: cur)

/-- `str.split()` with no argument: split on whitespace runs, discarding
empty fragments. -/
def pySplit (s : String) : List String := (wordsAux s.data []).map String.mk

/-- `pat in s` on Python strings: `pat` occurs as a contiguous substring. -/
def beginsWith : List Char → List Char → Bool
  | _, [] => true
  | [], _ :: _ => false
  | c :: cs, p :: ps => c = p && beginsWith cs ps

/-- See `beginsWith`: substring occurrence at any position. -/
def containsSub : List Char → List Char → Bool
  | [], pat => pat.isEmpty
  | c :: cs, pat => beginsWith (c :: cs) pat || containsSub cs pat

/-- `pat in s` for Python strings. -/
def strContains (s pat : String) : Bool := containsSub s.data pat.data

/-- The searchable text of `search_aliases` (`azure_service.py:331-338`):
`" ".join([namespace, resource_type, alias_name, default_path or ""])`
lowercased. -/
def searchableText (a : PolicyAlias) : String :=
  pyLower (a.namespace_ ++ " " ++ a.resource_type ++ " " ++ a.alias_name ++ " "
    ++ a.default_path.getD "")

/-- Truthiness of the optional `namespace_filter` argument: present and
non-empty. -/
def nsFilterTruthy : Option String → Bool
  | none => false
  | some s => !(s = "")

/-- `search_aliases` (`azure_service.py:311-346`) over a given alias list:
returns the list untouched when both arguments are falsy, otherwise runs
the filtering loop (namespace filter first, then the all-terms text
match), appending survivors in order. -/
def search_aliases (aliases : List PolicyAlias) (query : String)
    (namespace_filter : Option String) : List PolicyAlias :=
  if query = "" && !nsFilterTruthy namespace_filter then aliases
  else
    let query_lower := if query = "" then "" else pyLower query
    let query_terms := if query_lower = "" then [] else pySplit query_lower
    aliases.foldl
      (fun acc a =>
        if nsFilterTruthy namespace_filter && !(a.namespace_ = namespace_filter.getD "") then
          acc
        else if !query_terms.isEmpty
            && !(query_terms.all fun t => strContains (searchableText a) t) then
          acc
        else acc ++ [a])
      []

/-- One step of the counting dicts `namespace_counts`
(`azure_service.py:353-355`) and `types_by_namespace`
(`azure_service.py:290-294`): `d[ns] = d.get(ns, 0) + 1` on an
insertion-ordered association list, which is how a Python dict iterates. -/
def bump : List (String × Nat) → String → List (String × Nat)
  | [], ns => [(ns, 1)]
  | (k, v) :: rest, ns =>
    if k = ns then (k, v + 1) :: rest else (k, v) :: bump rest ns

/-- The per-namespace counting dict built by iterating over a list of
namespaces, in order. -/
def countsOf (l : List String) : List (String × Nat) := l.foldl bump []

/-- Lookup in the counting dict, `d.get(s, 0)`. -/
def getAssoc (m : List (String × Nat)) (s : String) : Nat :=
  match m with
  | [] => 0
  | (k, v) :: rest => if k = s then v else getAssoc rest s

/-- Lexicographic comparison of code-point sequences: Python's `<=` on
strings, via `lexLE` on the code points. -/
def lexLE : List Nat → List Nat → Bool
  | [], _ => true
  | _ :: _, [] => false
  | a :: as, b :: bs => if a < b then true else if b < a then false else lexLE as bs

/-- Python string `<=` (code-point lexicographic order). -/
def strLE (a b : String) : Bool := lexLE (a.data.map Char.toNat) (b.data.map Char.toNat)

/-- The sort order of `get_namespaces_with_counts`
(`azure_service.py:359-361`): ascending in the key
`(-count, namespace)`, i.e. descending count, ties by name. -/
def nsCountRel : (String × Nat) → (String × Nat) → Prop :=
  fun a b => b.2 < a.2 ∨ (a.2 = b.2 ∧ strLE a.1 b.1 = true)

instance : DecidableRel nsCountRel := fun a b => by
  unfold nsCountRel; infer_instance

instance : IsTotal (String × Nat) nsCountRel := by
  constructor
  have lex_total : ∀ u v : List Nat, lexLE u v = true ∨ lexLE v u = true := by
    intro u
    induction u with
    | nil => intro v; exact Or.inl rfl
    | cons a as ih =>
      intro v
      cases v with
      | nil => exact Or.inr rfl
      | cons b bs =>
        rcases Nat.lt_trichotomy a b with h | h | h
        · left; simp [lexLE, h]
        · subst h
          rcases ih bs with h' | h'
          · left; simp [lexLE, Nat.lt_irrefl, h']
          · right; simp [lexLE, Nat.lt_irrefl, h']
        · right; simp [lexLE, h]
  intro a b
  rcases Nat.lt_trichotomy a.2 b.2 with h | h | h
  · exact Or.inr (Or.inl h)
  · rcases lex_total (a.1.data.map Char.toNat) (b.1.data.map Char.toNat) with h' | h'
    · exact Or.inl (Or.inr ⟨h, h'⟩)
    · exact Or.inr (Or.inr ⟨h.symm, h'⟩)
  · exact Or.inl (Or.inl h)

instance : IsTrans (String × Nat) nsCountRel := by
  constructor
  have lex_trans : ∀ u v w : List Nat,
      lexLE u v = true → lexLE v w = true → lexLE u w = true := by
    intro u
    induction u with
    | nil => intro v w _ _; rfl
    | cons a as ih =>
      intro v w h1 h2
      cases v with
      | nil => simp [lexLE] at h1
      | cons b bs =>
        cases w with
        | nil => simp [lexLE] at h2
        | cons c cs =>
          by_cases hab : a < b
          · by_cases hbc : b < c
            · simp [lexLE, Nat.lt_trans hab hbc]
            · by_cases hcb : c < b
              · simp [lexLE, hbc, hcb] at h2
              · have hbceq : b = c :=
                  Nat.le_antisymm (Nat.le_of_not_lt hcb) (Nat.le_of_not_lt hbc)
                subst hbceq
                simp [lexLE, hab]
          · by_cases hba : b < a
            · simp [lexLE, hab, hba] at h1
            · have habeq : a = b :=
                Nat.le_antisymm (Nat.le_of_not_lt hba) (Nat.le_of_not_lt hab)
              subst habeq
              simp only [lexLE, Nat.lt_irrefl, if_neg (Nat.lt_irrefl a), if_false] at h1
              by_cases hac : a < c
              · simp [lexLE, hac]
              · by_cases hca : c < a
                · simp [lexLE, hac, hca] at h2
                · have haceq : a = c :=
                    Nat.le_antisymm (Nat.le_of_not_lt hca) (Nat.le_of_not_lt hac)
                  subst haceq
                  simp only [lexLE, Nat.lt_irrefl, if_neg (Nat.lt_irrefl a),
                    if_false] at h2 ⊢
                  exact ih bs cs h1 h2
  intro a b c hab hbc
  rcases hab with h1 | ⟨h1, h1'⟩
  · rcases hbc with h2 | ⟨h2, _⟩
    · exact Or.inl (Nat.lt_trans h2 h1)
    · exact Or.inl (h2 ▸ h1)
  · rcases hbc with h2 | ⟨h2, h2'⟩
    · exact Or.inl (by omega)
    · exact Or.inr ⟨h1.trans h2, lex_trans _ _ _ h1' h2'⟩

/-- The sort order of the `top_namespaces` field of `get_statistics`
(`azure_service.py:306-308`): `sorted(..., key=lambda x: x[1],
reverse=True)`, i.e. descending count, ties keeping insertion order
(Python's sort is stable). -/
def countDescRel : (String × Nat) → (String × Nat) → Prop := fun a b => b.2 ≤ a.2

instance : DecidableRel countDescRel := fun a b => by
  unfold countDescRel; infer_instance

instance : IsTotal (String × Nat) countDescRel :=
  ⟨fun a b => by unfold countDescRel; omega⟩

instance : IsTrans (String × Nat) countDescRel :=
  ⟨fun a b c h1 h2 => by unfold countDescRel at *; omega⟩

/-- `get_namespaces_with_counts` (`azure_service.py:348-362`) over a given
alias list: count per namespace, then sort by `(-count, namespace)`.
Python's stable `sorted` is modelled by `List.insertionSort`, which is
stable and sorts with respect to a total transitive relation. -/
def get_namespaces_with_counts (aliases : List PolicyAlias) : List (String × Nat) :=
  List.insertionSort nsCountRel (countsOf (aliases.map (·.namespace_)))

/-- The `top_namespaces` field computed by `get_statistics`
(`azure_service.py:288-294,306-308`): the `types_by_namespace` counting
dict sorted descending by count (stable) and truncated to 10 entries. -/
def top_namespaces (aliases : List PolicyAlias) : List (String × Nat) :=
  (List.insertionSort countDescRel (countsOf (aliases.map (·.namespace_)))).take 10

/-- A concrete remote detail used in closed examples: one resource type
with one alias carrying no optional fields. -/
def exampleDetail : NamespaceDetail :=
  ⟨some [⟨"virtualMachines", some [⟨"imageId", none, none, none⟩]⟩]⟩

/-- A concrete remote client for closed examples: namespace
`"Microsoft.B"` fails its detail fetch with an `AzureError`; every other
namespace returns `exampleDetail`. -/
def getEx : String → DetailResult :=
  fun s => if s = "Microsoft.B" then .azureErr 0 else .ok exampleDetail

/-- Stepping lemma for the retry loop: after `k` transient-failing attempts
(`k < maxRetries`), the loop is at attempt `k` with `maxRetries - k`
iterations left, having slept once per completed attempt. -/
theorem executeGo_skip {α : Type} (op : Nat → AttemptResult α) (d : ℚ) (m : Nat) :
    ∀ k, k < m → (∀ i, i < k → ∃ e, op i = .exc e ∧ e.isTransient = true) →
    ∃ last, retryExecute m d op =
      executeGo op d (m - k) k last ((List.range k).map fun i => d * 2 ^ i) := by
  intro k
  induction k with
  | zero =>
    intro _ _
    exact ⟨none, by simp [retryExecute]⟩
  | succ k ih =>
    intro hk htr
    obtain ⟨last, hIH⟩ := ih (by omega) (fun i hi => htr i (by omega))
    obtain ⟨e, hop, he⟩ := htr k (by omega)
    have hmk : m - k = (m - (k + 1)) + 1 := by omega
    have hpos : 0 < m - (k + 1) := by omega
    rw [hmk] at hIH
    cases e with
    | serviceRequest n =>
      refine ⟨some (.serviceRequest n), ?_⟩
      rw [hIH]
      simp [executeGo, hop, hpos, List.range_succ]
    | httpResponse n =>
      refine ⟨some (.httpResponse n), ?_⟩
      rw [hIH]
      simp [executeGo, hop, hpos, List.range_succ]
    | clientAuth n => simp [PyExc.isTransient] at he
    | otherExc n => simp [PyExc.isTransient] at he
    | retryFailed => simp [PyExc.isTransient] at he

/-- Claim C3: when every attempt raises a transient error
(`ServiceRequestError`/`HttpResponseError`), `RetryWithBackoff.execute`
calls the operation exactly `max_retries` times, sleeps
`base_delay * 2^attempt` before each retry (attempts `0 .. max_retries-2`),
and finally re-raises the transient error of the last attempt; with
`max_retries = 0` the operation never runs and the generic
`Exception("Retry failed")` is raised. -/
theorem retry_transient_backoff {α : Type} (m : Nat) (d : ℚ)
    (op : Nat → AttemptResult α) (errs : Nat → PyExc)
    (hop : ∀ i, op i = .exc (errs i))
    (htr : ∀ i, (errs i).isTransient = true) :
    (0 < m → retryExecute m d op =
      ⟨.error (errs (m - 1)), m, (List.range (m - 1)).map fun i => d * 2 ^ i⟩) ∧
    (m = 0 → retryExecute m d op = ⟨.error .retryFailed, 0, []⟩) := by
  constructor
  · intro hm
    obtain ⟨last, hskip⟩ :=
      executeGo_skip op d m (m - 1) (by omega) (fun i _ => ⟨errs i, hop i, htr i⟩)
    have h1 : m - (m - 1) = 1 := by omega
    rw [h1] at hskip
    rw [hskip]
    have he := htr (m - 1)
    have hm1 : m - 1 + 1 = m := by omega
    cases h : errs (m - 1) with
    | serviceRequest n => simp [executeGo, hop (m - 1), h, hm1]
    | httpResponse n => simp [executeGo, hop (m - 1), h, hm1]
    | clientAuth n => rw [h] at he; simp [PyExc.isTransient] at he
    | otherExc n => rw [h] at he; simp [PyExc.isTransient] at he
    | retryFailed => rw [h] at he; simp [PyExc.isTransient] at he
  · intro hm
    subst hm
    rfl

/-- Witness for `retry_transient_backoff`: three attempts, all raising
`ServiceRequestError`, with `max_retries = 3` and `base_delay = 1`. -/
theorem retry_transient_backoff_witness :
    (0 < 3 → retryExecute 3 1 (fun i => (.exc (.serviceRequest i) : AttemptResult Nat)) =
      ⟨.error (.serviceRequest 2), 3, (List.range 2).map fun i => (1 : ℚ) * 2 ^ i⟩) ∧
    (retryExecute 0 1 (fun i => (.exc (.serviceRequest i) : AttemptResult Nat)) =
      ⟨.error .retryFailed, 0, []⟩) :=
  ⟨(retry_transient_backoff 3 1 (fun i => (.exc (.serviceRequest i) : AttemptResult Nat))
      (fun i => .serviceRequest i) (fun _ => rfl) (fun _ => rfl)).1,
   (retry_transient_backoff 0 1 (fun i => (.exc (.serviceRequest i) : AttemptResult Nat))
      (fun i => .serviceRequest i) (fun _ => rfl) (fun _ => rfl)).2 rfl⟩

/-- Claim C4: if, after any run of transient failures, an attempt raises a
non-transient error — `ClientAuthenticationError` or any error that is
neither transient nor an authentication error — `RetryWithBackoff.execute`
re-raises it at once: no further attempt is made and no further delay is
slept, regardless of how many retries remain. -/
theorem retry_short_circuit {α : Type} (m : Nat) (d : ℚ)
    (op : Nat → AttemptResult α) (k : Nat) (hk : k < m)
    (htr : ∀ i, i < k → ∃ e, op i = .exc e ∧ e.isTransient = true) :
    ∀ e, op k = .exc e → e.isTransient = false →
      retryExecute m d op = ⟨.error e, k + 1, (List.range k).map fun i => d * 2 ^ i⟩ := by
  intro e hop he
  obtain ⟨last, hskip⟩ := executeGo_skip op d m k hk htr
  obtain ⟨r, hr⟩ : ∃ r, m - k = r + 1 := ⟨m - k - 1, by omega⟩
  rw [hr] at hskip
  rw [hskip]
  cases e with
  | clientAuth n => simp [executeGo, hop]
  | serviceRequest n => simp [PyExc.isTransient] at he
  | httpResponse n => simp [PyExc.isTransient] at he
  | otherExc n => simp [executeGo, hop]
  | retryFailed => simp [executeGo, hop]

/-- Witness for `retry_short_circuit`: with five retries available, an
authentication error on attempt 0 propagates immediately (one call, no
sleeps), and likewise a `ValueError`-like unexpected error after one
transient attempt propagates with no further retry. -/
theorem retry_short_circuit_witness :
    (retryExecute 5 1 (fun _ => (.exc (.clientAuth 7) : AttemptResult Nat)) =
      ⟨.error (.clientAuth 7), 1, []⟩) ∧
    (retryExecute 5 1
        (fun i => (.exc (if i = 0 then .serviceRequest 3 else .otherExc 9) :
          AttemptResult Nat)) =
      ⟨.error (.otherExc 9), 2, (List.range 1).map fun i => (1 : ℚ) * 2 ^ i⟩) := by
  constructor
  · exact retry_short_circuit 5 1 (fun _ => (.exc (.clientAuth 7) : AttemptResult Nat)) 0
      (by omega) (fun i hi => absurd hi (by omega)) (.clientAuth 7) rfl rfl
  · exact retry_short_circuit 5 1
      (fun i => (.exc (if i = 0 then .serviceRequest 3 else .otherExc 9) : AttemptResult Nat))
      1 (by omega)
      (fun i hi => by
        have h0 : i = 0 := by omega
        subst h0
        exact ⟨.serviceRequest 3, rfl, rfl⟩)
      (.otherExc 9) rfl rfl

/-- Claim C5: the cache is valid iff it holds data (an `"aliases"` entry was
stored and a timestamp set) and `now - fetchedAt < ttl`; and for every TTL
configuration, after one successful fetch a second
`get_policy_aliases(force_refresh=False)` call within the TTL window
returns the cached sequence with no underlying fetch — so two queries in
the window trigger exactly one fetch. The default TTL is one hour
(`defaultCacheDuration`). -/
theorem cache_validity_single_fetch (st : ServiceState) (b : Bool) (t₁ t₂ : ℤ)
    (aliases : List PolicyAlias) (f₂ : Except PyExc (List PolicyAlias))
    (hfetch : b = true ∨ isCacheValid st t₁ = false)
    (hwin : t₂ - t₁ < st.cacheDuration) :
    (∀ (st' : ServiceState) (now : ℤ),
      isCacheValid st' now = true ↔
        ((∃ l, st'.cacheAliases = some l) ∧
         (∃ ts, st'.cacheTimestamp = some ts ∧ now - ts < st'.cacheDuration))) ∧
    defaultCacheDuration = 60 * 60 ∧
    (getPolicyAliases st b t₁ (.ok aliases)).fetched = true ∧
    (getPolicyAliases st b t₁ (.ok aliases)).result = .ok aliases ∧
    getPolicyAliases (getPolicyAliases st b t₁ (.ok aliases)).state false t₂ f₂ =
      ⟨.ok aliases, (getPolicyAliases st b t₁ (.ok aliases)).state, false⟩ := by
  have hvalid : (!b && isCacheValid st t₁) = false := by
    rcases hfetch with h | h
    · subst h; rfl
    · simp [h]
  refine ⟨?_, rfl, ?_, ?_, ?_⟩
  · intro st' now
    rcases h1 : st'.cacheTimestamp with _ | ts <;>
      rcases h2 : st'.cacheAliases with _ | l <;>
        simp [isCacheValid, h1, h2]
  · simp [getPolicyAliases, hvalid]
  · simp [getPolicyAliases, hvalid]
  · have hstate : (getPolicyAliases st b t₁ (.ok aliases)).state =
      { st with cacheAliases := some aliases, cacheTimestamp := some t₁ } := by
      simp [getPolicyAliases, hvalid]
    rw [hstate]
    have hvalid2 : isCacheValid
        { st with cacheAliases := some aliases, cacheTimestamp := some t₁ } t₂ = true := by
      simp [isCacheValid, hwin]
    simp [getPolicyAliases, hvalid2]

/-- Witness for `cache_validity_single_fetch`: starting from an empty
service state with the default one-hour TTL, a forced successful fetch at
time 0 followed by a plain query at time 10 hits the cache and performs no
second fetch. -/
theorem cache_validity_single_fetch_witness :
    (getPolicyAliases ⟨none, none, defaultCacheDuration⟩ true 0 (.ok [])).fetched = true ∧
    getPolicyAliases
        (getPolicyAliases ⟨none, none, defaultCacheDuration⟩ true 0 (.ok [])).state
        false 10 (.error .retryFailed) =
      ⟨.ok [], (getPolicyAliases ⟨none, none, defaultCacheDuration⟩ true 0 (.ok [])).state,
        false⟩ :=
  ⟨(cache_validity_single_fetch ⟨none, none, defaultCacheDuration⟩ true 0 10 []
      (.error .retryFailed) (Or.inl rfl) (by decide)).2.2.1,
   (cache_validity_single_fetch ⟨none, none, defaultCacheDuration⟩ true 0 10 []
      (.error .retryFailed) (Or.inl rfl) (by decide)).2.2.2.2⟩

/-- Claim C2, amended: when the underlying retried fetch fails,
`get_policy_aliases` returns the stale cached list if a previous **non-empty**
cache exists (whether or not it has expired), and re-raises the failure when
no cache was ever stored **or the stored list is empty** — the fallback
condition `self.cache.get("aliases")` tests truthiness, not presence. This
holds for `force_refresh` both true and false. -/
theorem stale_fallback (st : ServiceState) (b : Bool) (now : ℤ) (e : PyExc)
    (hfetch : b = true ∨ isCacheValid st now = false) :
    (∀ a rest, st.cacheAliases = some (a :: rest) →
      getPolicyAliases st b now (.error e) = ⟨.ok (a :: rest), st, true⟩) ∧
    ((st.cacheAliases = none ∨ st.cacheAliases = some []) →
      getPolicyAliases st b now (.error e) = ⟨.error e, st, true⟩) := by
  have hvalid : (!b && isCacheValid st now) = false := by
    rcases hfetch with h | h
    · subst h; rfl
    · simp [h]
  constructor
  · intro a rest h
    simp [getPolicyAliases, hvalid, h]
  · intro h
    rcases h with h | h <;> simp [getPolicyAliases, hvalid, h]

/-- Counterexample to claim C2 as stated: here a previous cache *exists*
(a previous successful fetch stored the empty alias list, so the cache
dict holds an `"aliases"` key), the retried fetch fails, and the call
re-raises the error instead of returning the stale cached list. -/
theorem stale_fallback_counterexample :
    (⟨some [], some 0, defaultCacheDuration⟩ : ServiceState).cacheAliases ≠ none ∧
    getPolicyAliases ⟨some [], some 0, defaultCacheDuration⟩ true 9999
        (.error (.serviceRequest 0)) =
      ⟨.error (.serviceRequest 0), ⟨some [], some 0, defaultCacheDuration⟩, true⟩ :=
  ⟨by simp, rfl⟩

/-- Witness for `stale_fallback`: an expired non-empty cache is served on
fetch failure, and a never-filled cache re-raises. -/
theorem stale_fallback_witness :
    (getPolicyAliases
        ⟨some [⟨"Microsoft.Compute", "virtualMachines", "imageId", none, none, none⟩],
          some 0, defaultCacheDuration⟩ true 999999 (.error .retryFailed) =
      ⟨.ok [⟨"Microsoft.Compute", "virtualMachines", "imageId", none, none, none⟩],
        ⟨some [⟨"Microsoft.Compute", "virtualMachines", "imageId", none, none, none⟩],
          some 0, defaultCacheDuration⟩, true⟩) ∧
    (getPolicyAliases ⟨none, none, defaultCacheDuration⟩ false 0 (.error (.httpResponse 4)) =
      ⟨.error (.httpResponse 4), ⟨none, none, defaultCacheDuration⟩, true⟩) :=
  ⟨(stale_fallback
      ⟨some [⟨"Microsoft.Compute", "virtualMachines", "imageId", none, none, none⟩],
        some 0, defaultCacheDuration⟩ true 999999 .retryFailed (Or.inl rfl)).1
      ⟨"Microsoft.Compute", "virtualMachines", "imageId", none, none, none⟩ [] rfl,
   (stale_fallback ⟨none, none, defaultCacheDuration⟩ false 0 (.httpResponse 4)
      (Or.inr rfl)).2 (Or.inl rfl)⟩

/-- Claim C10: when the stored cache holds an empty alias list (a previous
successful fetch returned zero aliases), a later `get_policy_aliases` call
whose underlying fetch fails re-raises the error rather than returning the
stale empty list: the stale-fallback condition tests the stored list's
non-emptiness, not its presence. -/
theorem empty_cache_no_fallback (st : ServiceState) (b : Bool) (now : ℤ) (e : PyExc)
    (hstored : st.cacheAliases = some [])
    (hfetch : b = true ∨ isCacheValid st now = false) :
    getPolicyAliases st b now (.error e) = ⟨.error e, st, true⟩ := by
  have hvalid : (!b && isCacheValid st now) = false := by
    rcases hfetch with h | h
    · subst h; rfl
    · simp [h]
  simp [getPolicyAliases, hvalid, hstored]

/-- Witness for `empty_cache_no_fallback`: a concrete state with a stored
empty list re-raises the failed fetch's error. -/
theorem empty_cache_no_fallback_witness :
    getPolicyAliases ⟨some [], some 0, defaultCacheDuration⟩ true 5
        (.error (.clientAuth 1)) =
      ⟨.error (.clientAuth 1), ⟨some [], some 0, defaultCacheDuration⟩, true⟩ :=
  empty_cache_no_fallback ⟨some [], some 0, defaultCacheDuration⟩ true 5 (.clientAuth 1)
    rfl (Or.inl rfl)

/-- Every record the flattening loop produces carries the namespace it was
called with. -/
theorem flattenProvider_ns (ns : String) (d : NamespaceDetail) :
    ∀ a ∈ flattenProvider ns d, a.namespace_ = ns := by
  intro a ha
  simp only [flattenProvider, List.mem_flatMap, List.mem_map] at ha
  obtain ⟨rt, _, al, _, rfl⟩ := ha
  rfl

/-- A unit of work that returns normally only returns records with a
non-empty namespace. -/
theorem fetch_provider_aliases_ok_ns (get : String → DetailResult)
    (o : Option String) (l : List PolicyAlias)
    (h : fetch_provider_aliases get o = .ok l) :
    ∀ a ∈ l, a.namespace_ ≠ "" := by
  intro a ha
  cases o with
  | none =>
    simp only [fetch_provider_aliases] at h
    cases h
    simp at ha
  | some s =>
    by_cases hs : s = ""
    · simp only [fetch_provider_aliases, hs, if_pos rfl] at h
      cases h
      simp at ha
    · simp only [fetch_provider_aliases, if_neg hs] at h
      cases hget : get s with
      | ok d =>
        rw [hget] at h
        cases h
        rw [flattenProvider_ns s d a ha]
        exact hs
      | azureErr n =>
        rw [hget] at h
        cases h
        simp at ha
      | otherErr n => rw [hget] at h; cases h

/-- When the remote client never raises a non-Azure error, every unit of
work returns normally, contributing exactly its `successAliases`. -/
theorem fetch_provider_aliases_no_escape (get : String → DetailResult)
    (honly : ∀ s n, get s ≠ .otherErr n) (o : Option String) :
    fetch_provider_aliases get o = .ok (successAliases get o) := by
  cases o with
  | none => rfl
  | some s =>
    by_cases hs : s = ""
    · simp [fetch_provider_aliases, successAliases, hs]
    · cases hget : get s with
      | ok d => simp [fetch_provider_aliases, successAliases, hs, hget]
      | azureErr n => simp [fetch_provider_aliases, successAliases, hs, hget]
      | otherErr n => exact absurd hget (honly s n)

/-- Characterisation of the fan-out loop when no unit of work escapes with
an exception: the accumulator grows by the flattened successful aliases and
the failed list never grows. -/
theorem foldl_fetchStep_spec (get : String → DetailResult)
    (honly : ∀ s n, get s ≠ .otherErr n) :
    ∀ (l : List (Option String)) (acc : FetchOut),
      (l.foldl (fetchStep get) acc).failed_providers = acc.failed_providers ∧
      (l.foldl (fetchStep get) acc).all_aliases =
        acc.all_aliases ++ l.flatMap (successAliases get) := by
  intro l
  induction l with
  | nil => intro acc; simp
  | cons o l ih =>
    intro acc
    have hstep : fetchStep get acc o =
        if (successAliases get o).isEmpty then acc
        else { acc with
          all_aliases := acc.all_aliases ++ successAliases get o
          providers_with_aliases := acc.providers_with_aliases + 1 } := by
      simp [fetchStep, fetch_provider_aliases_no_escape get honly o]
    by_cases hemp : (successAliases get o).isEmpty
    · have hnil : successAliases get o = [] := by
        simpa [List.isEmpty_iff] using hemp
      rw [List.foldl_cons, hstep, if_pos hemp]
      refine ⟨(ih acc).1, ?_⟩
      rw [(ih acc).2]
      simp [hnil]
    · rw [List.foldl_cons, hstep, if_neg hemp]
      constructor
      · exact (ih _).1
      · rw [(ih _).2]
        simp [List.append_assoc]

/-- Claim C1, amended: when listing succeeds and the per-namespace detail
fetch of `K` of the `N` namespaces raises (an `AzureError`, the class the
remote client raises), the fan-out completes without raising and the
result contains exactly the aliases flattened from the `N - K` successful
namespaces; but the failure report stays **empty** — an `AzureError` is
caught inside `fetch_provider_aliases` and converted to an empty
contribution, so it never reaches the `as_completed` handler that records
into `failed_providers` (only a non-Azure error escaping a unit of work
does). -/
theorem fanout_failures_isolated (listing : List (Option String))
    (get : String → DetailResult)
    (honly : ∀ s n, get s ≠ .otherErr n) :
    (fetchAliasesSync listing get).all_aliases =
      listing.flatMap (successAliases get) ∧
    (fetchAliasesSync listing get).failed_providers = [] := by
  have h := foldl_fetchStep_spec get honly listing ⟨[], [], 0⟩
  exact ⟨by simpa [fetchAliasesSync] using h.2, by simpa [fetchAliasesSync] using h.1⟩

/-- Counterexample to claim C1 as stated: two namespaces, `"Microsoft.B"`
failing its detail fetch with an `AzureError`. The fan-out returns the one
alias of the successful namespace, but `failed_providers` is `[]`, not
`["Microsoft.B"]` as the claim requires. -/
theorem fanout_failure_report_counterexample :
    getEx "Microsoft.B" = .azureErr 0 ∧
    fetchAliasesSync [some "Microsoft.A", some "Microsoft.B"] getEx =
      ⟨[⟨"Microsoft.A", "virtualMachines", "imageId", none, none, none⟩], [], 1⟩ ∧
    (fetchAliasesSync [some "Microsoft.A", some "Microsoft.B"] getEx).failed_providers ≠
      ["Microsoft.B"] := by
  refine ⟨by decide, by decide, by decide⟩

/-- Witness for `fanout_failures_isolated`, at the concrete two-namespace
client `getEx`. -/
theorem fanout_failures_isolated_witness :
    (∀ s n, getEx s ≠ DetailResult.otherErr n) ∧
    (fetchAliasesSync [some "Microsoft.A", some "Microsoft.B"] getEx).all_aliases =
      [some "Microsoft.A", some "Microsoft.B"].flatMap (successAliases getEx) ∧
    (fetchAliasesSync [some "Microsoft.A", some "Microsoft.B"] getEx).failed_providers =
      [] := by
  have honly : ∀ s n, getEx s ≠ DetailResult.otherErr n := by
    intro s n
    unfold getEx
    split <;> simp
  exact ⟨honly,
    (fanout_failures_isolated [some "Microsoft.A", some "Microsoft.B"] getEx honly).1,
    (fanout_failures_isolated [some "Microsoft.A", some "Microsoft.B"] getEx honly).2⟩

/-- Every alias accumulated by the fan-out has a non-empty namespace. -/
theorem foldl_fetchStep_ns (get : String → DetailResult) :
    ∀ (l : List (Option String)) (acc : FetchOut),
      (∀ a ∈ acc.all_aliases, a.namespace_ ≠ "") →
      ∀ a ∈ (l.foldl (fetchStep get) acc).all_aliases, a.namespace_ ≠ "" := by
  intro l
  induction l with
  | nil => intro acc hacc; simpa using hacc
  | cons o l ih =>
    intro acc hacc
    rw [List.foldl_cons]
    refine ih (fetchStep get acc o) ?_
    intro a ha
    cases hfp : fetch_provider_aliases get o with
    | ok pa =>
      simp only [fetchStep, hfp] at ha
      by_cases hemp : pa.isEmpty
      · rw [if_pos hemp] at ha
        exact hacc a ha
      · rw [if_neg hemp] at ha
        simp only [List.mem_append] at ha
        rcases ha with ha | ha
        · exact hacc a ha
        · exact fetch_provider_aliases_ok_ns get o pa hfp a ha
    | error n =>
      simp only [fetchStep, hfp] at ha
      exact hacc a ha

/-- Claim C7: every record produced by the fan-out has `namespace`,
`resource_type` and `alias_name` present — they are copied verbatim from
the remote response, whose interface (and the repository's own pydantic
model in `main.py`) declares them as required strings, and the namespace is
additionally non-empty because falsy namespaces are skipped before any
record is built. The fields `default_path`, `default_pattern` and `type`
may each be absent, witnessed by an accepted response that produces a
record with all three `none`. -/
theorem alias_fields_present :
    (∀ (listing : List (Option String)) (get : String → DetailResult)
      (a : PolicyAlias), a ∈ (fetchAliasesSync listing get).all_aliases →
        a.namespace_ ≠ "") ∧
    (∃ (listing : List (Option String)) (get : String → DetailResult)
      (a : PolicyAlias), a ∈ (fetchAliasesSync listing get).all_aliases ∧
        a.default_path = none ∧ a.default_pattern = none ∧ a.type = none) := by
  constructor
  · intro listing get a ha
    exact foldl_fetchStep_ns get listing ⟨[], [], 0⟩ (by simp) a ha
  · exact ⟨[some "Microsoft.A"], getEx,
      ⟨"Microsoft.A", "virtualMachines", "imageId", none, none, none⟩,
      by decide, rfl, rfl, rfl⟩

/-- Witness for `alias_fields_present`, at the concrete client `getEx`. -/
theorem alias_fields_present_witness :
    (⟨"Microsoft.A", "virtualMachines", "imageId", none, none, none⟩ : PolicyAlias) ∈
      (fetchAliasesSync [some "Microsoft.A"] getEx).all_aliases ∧
    (⟨"Microsoft.A", "virtualMachines", "imageId", none, none, none⟩ :
      PolicyAlias).namespace_ ≠ "" :=
  ⟨by decide,
   alias_fields_present.1 [some "Microsoft.A"] getEx
     ⟨"Microsoft.A", "virtualMachines", "imageId", none, none, none⟩ (by decide)⟩

/-- A fold that appends the elements passing two negative guards collects
exactly the elements failing both guards, in order. -/
theorem foldl_keep_filter {α : Type} (c1 c2 : α → Bool) :
    ∀ (l acc : List α),
      l.foldl (fun acc a => if c1 a then acc else if c2 a then acc else acc ++ [a]) acc =
        acc ++ l.filter (fun a => !c1 a && !c2 a) := by
  intro l
  induction l with
  | nil => intro acc; simp
  | cons a l ih =>
    intro acc
    rw [List.foldl_cons]
    by_cases h1 : c1 a
    · rw [if_pos h1, ih]
      simp [List.filter_cons, h1]
    · by_cases h2 : c2 a
      · rw [if_neg h1, if_pos h2, ih]
        simp [List.filter_cons, h1, h2]
      · rw [if_neg h1, if_neg h2, ih]
        simp [List.filter_cons, h1, h2]

/-- Lowercasing preserves emptiness of a Python string. -/
theorem pyLower_empty_iff (q : String) : pyLower q = "" ↔ q = "" := by
  constructor
  · intro h
    have hd : q.data.map Char.toLower = [] := congrArg String.data h
    have hq : q.data = [] := List.map_eq_nil_iff.mp hd
    cases q
    simp only [String.data] at hq
    rw [hq]
  · intro h
    subst h
    rfl

/-- The two `let` bindings of `search_aliases` collapse: the term list is
always the whitespace-split of the lowercased query. -/
theorem search_aliases_eq (aliases : List PolicyAlias) (query : String)
    (nf : Option String) :
    search_aliases aliases query nf =
      if query = "" && !nsFilterTruthy nf then aliases
      else
        aliases.foldl
          (fun acc a =>
            if nsFilterTruthy nf && !(a.namespace_ = nf.getD "") then acc
            else if !(pySplit (pyLower query)).isEmpty
                && !((pySplit (pyLower query)).all fun t =>
                      strContains (searchableText a) t) then
              acc
            else acc ++ [a])
          [] := by
  unfold search_aliases
  by_cases hq : query = ""
  · subst hq
    rfl
  · have hl : ¬(pyLower query = "") := fun h => hq ((pyLower_empty_iff query).mp h)
    simp [hq, hl]

/-- Pointwise agreement of the loop guards of `search_aliases` with the
declarative search predicate: pass the namespace filter (when truthy) and
contain every query term. -/
theorem search_loop_pred (nf : Option String) (terms : List String) (a : PolicyAlias) :
    (!(nsFilterTruthy nf && !(a.namespace_ = nf.getD "")) &&
      !(!terms.isEmpty && !(terms.all fun t => strContains (searchableText a) t))) =
    decide ((nsFilterTruthy nf = true → a.namespace_ = nf.getD "") ∧
      ∀ t ∈ terms, strContains (searchableText a) t = true) := by
  apply Bool.eq_iff_iff.mpr
  by_cases h1 : nsFilterTruthy nf = true <;>
    by_cases h2 : a.namespace_ = nf.getD "" <;>
      by_cases hterm : terms = [] <;>
        simp [h1, h2, hterm, List.all_eq_true]

/-- Claim C6: with both the query and the namespace filter empty/absent,
`search_aliases` returns the full cached alias list unfiltered; in general
it returns exactly the aliases that pass the namespace filter (when set)
and whose lowercase searchable string (built from namespace, resource
type, alias name and `default_path or ""`) contains every
whitespace-split lowercase query term — AND semantics — in the order the
aliases appear in the cached sequence (a sublist of it). -/
theorem search_filter_semantics (aliases : List PolicyAlias) (query : String)
    (nf : Option String) :
    search_aliases aliases "" none = aliases ∧
    search_aliases aliases query nf =
      aliases.filter (fun a =>
        decide ((nsFilterTruthy nf = true → a.namespace_ = nf.getD "") ∧
          ∀ t ∈ pySplit (pyLower query), strContains (searchableText a) t = true)) ∧
    (search_aliases aliases query nf).Sublist aliases := by
  have hmain : search_aliases aliases query nf =
      aliases.filter (fun a =>
        decide ((nsFilterTruthy nf = true → a.namespace_ = nf.getD "") ∧
          ∀ t ∈ pySplit (pyLower query), strContains (searchableText a) t = true)) := by
    rw [search_aliases_eq]
    by_cases hcond : (query = "" && !nsFilterTruthy nf) = true
    · rw [if_pos hcond]
      obtain ⟨hq, hnf⟩ : query = "" ∧ nsFilterTruthy nf = false := by
        simpa using hcond
      subst hq
      refine (List.filter_eq_self.mpr ?_).symm
      intro a _
      simp [hnf, pySplit, pyLower, wordsAux]
    · rw [if_neg hcond]
      rw [foldl_keep_filter
        (fun a => nsFilterTruthy nf && !(a.namespace_ = nf.getD ""))
        (fun a => !(pySplit (pyLower query)).isEmpty
            && !((pySplit (pyLower query)).all fun t => strContains (searchableText a) t))
        aliases []]
      rw [List.nil_append]
      exact List.filter_congr fun a _ => search_loop_pred nf (pySplit (pyLower query)) a
  refine ⟨?_, hmain, ?_⟩
  · rfl
  · rw [hmain]
    exact List.filter_sublist aliases

/-- One `d[ns] = d.get(ns, 0) + 1` step increases the sum of the stored
counts by one. -/
theorem bump_sum (m : List (String × Nat)) (ns : String) :
    ((bump m ns).map Prod.snd).sum = (m.map Prod.snd).sum + 1 := by
  induction m with
  | nil => simp [bump]
  | cons p rest ih =>
    obtain ⟨k, v⟩ := p
    by_cases h : k = ns
    · simp [bump, h]
      omega
    · simp [bump, h, ih]
      omega

/-- Effect of a counting step on lookups: the bumped key reads one higher,
all other keys are unchanged. -/
theorem getAssoc_bump (m : List (String × Nat)) (ns s : String) :
    getAssoc (bump m ns) s = getAssoc m s + (if ns = s then 1 else 0) := by
  induction m with
  | nil =>
    by_cases h : ns = s <;> simp [bump, getAssoc, h]
  | cons p rest ih =>
    obtain ⟨k, v⟩ := p
    by_cases hk : k = ns
    · subst hk
      by_cases hs : k = s
      · simp [bump, getAssoc, hs]
      · simp [bump, getAssoc, hs]
    · by_cases hs : k = s
      · have hns : ¬(ns = s) := fun h => hk (hs.trans h.symm)
        have hsn : ¬(s = ns) := fun h => hns h.symm
        simp [bump, hk, getAssoc, hs, hns, hsn]
      · simp [bump, hk, getAssoc, hs, ih]

/-- In a dict with distinct keys, every entry reads back its own value. -/
theorem getAssoc_mem (m : List (String × Nat)) (hnd : (m.map Prod.fst).Nodup) :
    ∀ p ∈ m, p.2 = getAssoc m p.1 := by
  induction m with
  | nil => simp
  | cons q rest ih =>
    obtain ⟨k, v⟩ := q
    intro p hp
    simp only [List.map_cons, List.nodup_cons] at hnd
    obtain ⟨hk, hnd'⟩ := hnd
    rcases List.mem_cons.mp hp with h | h
    · subst h; simp [getAssoc]
    · have hne : ¬(k = p.1) := fun he => hk (he ▸ List.mem_map_of_mem Prod.fst h)
      simp only [getAssoc, if_neg hne]
      exact ih hnd' p h

/-- A counting step leaves the key sequence unchanged when the key is
already present, and appends it otherwise (Python dicts keep insertion
order). -/
theorem bump_keys (m : List (String × Nat)) (ns : String) :
    (bump m ns).map Prod.fst =
      if ns ∈ m.map Prod.fst then m.map Prod.fst else m.map Prod.fst ++ [ns] := by
  induction m with
  | nil => simp [bump]
  | cons p rest ih =>
    obtain ⟨k, v⟩ := p
    by_cases hk : k = ns
    · subst hk
      simp [bump]
    · have hns : ¬(ns = k) := fun h => hk h.symm
      by_cases hin : ns ∈ rest.map Prod.fst <;>
        simp [bump, hk, ih, hin, List.mem_cons, hns]

/-- Key membership after a counting step. -/
theorem bump_keys_mem (m : List (String × Nat)) (ns : String) :
    ∀ t, t ∈ (bump m ns).map Prod.fst ↔ t ∈ m.map Prod.fst ∨ t = ns := by
  intro t
  rw [bump_keys]
  by_cases h : ns ∈ m.map Prod.fst
  · rw [if_pos h]
    constructor
    · exact Or.inl
    · rintro (ht | rfl)
      · exact ht
      · exact h
  · rw [if_neg h]
    simp

/-- A counting step preserves distinctness of the keys. -/
theorem bump_keys_nodup (m : List (String × Nat)) (ns : String)
    (hnd : (m.map Prod.fst).Nodup) : ((bump m ns).map Prod.fst).Nodup := by
  rw [bump_keys]
  by_cases h : ns ∈ m.map Prod.fst
  · simpa [h] using hnd
  · rw [if_neg h]
    simp [List.nodup_append, hnd, h]

/-- Invariant of the counting fold: starting from a dict with distinct
keys, the final sum grows by the number of items counted, keys stay
distinct, the key set is the union of the old keys and the counted items,
and every entry equals its base value plus its multiplicity among the
counted items. -/
theorem countsOf_spec :
    ∀ (l : List String) (m : List (String × Nat)), (m.map Prod.fst).Nodup →
      (((l.foldl bump m).map Prod.snd).sum = (m.map Prod.snd).sum + l.length) ∧
      ((l.foldl bump m).map Prod.fst).Nodup ∧
      (∀ s, s ∈ (l.foldl bump m).map Prod.fst ↔ s ∈ m.map Prod.fst ∨ s ∈ l) ∧
      (∀ p ∈ l.foldl bump m, p.2 = getAssoc m p.1 + l.count p.1) := by
  intro l
  induction l with
  | nil =>
    intro m hnd
    refine ⟨by simp, by simpa using hnd, by simp, ?_⟩
    intro p hp
    simpa using getAssoc_mem m hnd p hp
  | cons s l ih =>
    intro m hnd
    have hnd' := bump_keys_nodup m s hnd
    obtain ⟨ihsum, ihnd, ihmem, ihcount⟩ := ih (bump m s) hnd'
    refine ⟨?_, by simpa using ihnd, ?_, ?_⟩
    · rw [List.foldl_cons, ihsum, bump_sum]
      simp
      omega
    · intro t
      rw [List.foldl_cons, ihmem t, bump_keys_mem m s t]
      simp only [List.mem_cons]
      tauto
    · intro p hp
      rw [List.foldl_cons] at hp
      have h := ihcount p hp
      rw [getAssoc_bump] at h
      rw [h, List.count_cons]
      by_cases hs : p.1 = s
      · simp [hs]
        omega
      · have hsn : ¬(s = p.1) := fun he => hs he.symm
        simp [hs, hsn]

/-- The counting dict of a list of namespaces: counts sum to the length,
keys are exactly the distinct namespaces, and each entry counts its key's
occurrences. -/
theorem countsOf_props (l : List String) :
    ((countsOf l).map Prod.snd).sum = l.length ∧
    ((countsOf l).map Prod.fst).Nodup ∧
    (∀ s, s ∈ (countsOf l).map Prod.fst ↔ s ∈ l) ∧
    (∀ p ∈ countsOf l, p.2 = l.count p.1) := by
  obtain ⟨h1, h2, h3, h4⟩ := countsOf_spec l [] (by simp)
  refine ⟨by simpa [countsOf] using h1, h2, ?_, ?_⟩
  · intro s
    rw [countsOf, h3 s]
    simp
  · intro p hp
    have h := h4 p hp
    simpa [getAssoc] using h

/-- Claim C8: `get_namespaces_with_counts` returns one entry per distinct
namespace of the cached list, the per-namespace counts are the occurrence
counts and sum to the total alias count, entries are sorted descending by
count with ties ascending alphabetically (`nsCountRel`), and the example
`[A, B, A, C]` yields `[(A, 2), (B, 1), (C, 1)]`. -/
theorem namespaces_with_counts_spec (aliases : List PolicyAlias) :
    ((get_namespaces_with_counts aliases).map Prod.fst).Nodup ∧
    (∀ s, s ∈ (get_namespaces_with_counts aliases).map Prod.fst ↔
      s ∈ aliases.map (·.namespace_)) ∧
    (∀ p ∈ get_namespaces_with_counts aliases,
      p.2 = (aliases.map (·.namespace_)).count p.1) ∧
    ((get_namespaces_with_counts aliases).map Prod.snd).sum = aliases.length ∧
    (get_namespaces_with_counts aliases).Pairwise nsCountRel ∧
    get_namespaces_with_counts
        [⟨"A", "t", "x", none, none, none⟩, ⟨"B", "t", "x", none, none, none⟩,
         ⟨"A", "t", "y", none, none, none⟩, ⟨"C", "t", "z", none, none, none⟩] =
      [("A", 2), ("B", 1), ("C", 1)] := by
  obtain ⟨hsum, hnd, hmem, hcount⟩ := countsOf_props (aliases.map (·.namespace_))
  have hperm : List.Perm (get_namespaces_with_counts aliases)
      (countsOf (aliases.map (·.namespace_))) :=
    List.perm_insertionSort nsCountRel _
  refine ⟨?_, ?_, ?_, ?_, ?_, by decide⟩
  · exact ((hperm.map Prod.fst).nodup_iff).mpr hnd
  · intro s
    rw [(hperm.map Prod.fst).mem_iff]
    exact hmem s
  · intro p hp
    exact hcount p (hperm.mem_iff.mp hp)
  · rw [(hperm.map Prod.snd).sum_eq, hsum, List.length_map]
  · exact List.sorted_insertionSort nsCountRel _

/-- Witness for `namespaces_with_counts_spec`: the entry for namespace
`"A"` in the example records its occurrence count. -/
theorem namespaces_with_counts_spec_witness :
    ("A", 2) ∈ get_namespaces_with_counts
        [⟨"A", "t", "x", none, none, none⟩, ⟨"B", "t", "x", none, none, none⟩,
         ⟨"A", "t", "y", none, none, none⟩, ⟨"C", "t", "z", none, none, none⟩] ∧
    (2 : Nat) =
      (([⟨"A", "t", "x", none, none, none⟩, ⟨"B", "t", "x", none, none, none⟩,
         ⟨"A", "t", "y", none, none, none⟩, ⟨"C", "t", "z", none, none, none⟩] :
        List PolicyAlias).map (·.namespace_)).count "A" :=
  ⟨by decide,
   (namespaces_with_counts_spec
      [⟨"A", "t", "x", none, none, none⟩, ⟨"B", "t", "x", none, none, none⟩,
       ⟨"A", "t", "y", none, none, none⟩, ⟨"C", "t", "z", none, none, none⟩]).2.2.1
     ("A", 2) (by decide)⟩

/-- Claim C9: the `top_namespaces` field of `get_statistics` has at most 10
entries — exactly `min 10 (number of distinct namespaces)`, so 10 even for
1000 distinct namespaces — is ordered descending by per-namespace count
(`countDescRel`), and breaks ties by the insertion order of each
namespace's first occurrence: for every count value, the entries carrying
it form a sublist of the counting dict, whose key order is first-occurrence
order. An 11-distinct-namespace example is truncated to 10. -/
theorem top_namespaces_spec (aliases : List PolicyAlias) :
    (top_namespaces aliases).length ≤ 10 ∧
    (top_namespaces aliases).length =
      min 10 (countsOf (aliases.map (·.namespace_))).length ∧
    (top_namespaces aliases).Pairwise countDescRel ∧
    (∀ c : Nat, List.Sublist ((top_namespaces aliases).filter fun p => p.2 == c)
      ((countsOf (aliases.map (·.namespace_))).filter fun p => p.2 == c)) ∧
    (top_namespaces
        [⟨"N01", "t", "x", none, none, none⟩, ⟨"N02", "t", "x", none, none, none⟩,
         ⟨"N03", "t", "x", none, none, none⟩, ⟨"N04", "t", "x", none, none, none⟩,
         ⟨"N05", "t", "x", none, none, none⟩, ⟨"N06", "t", "x", none, none, none⟩,
         ⟨"N07", "t", "x", none, none, none⟩, ⟨"N08", "t", "x", none, none, none⟩,
         ⟨"N09", "t", "x", none, none, none⟩, ⟨"N10", "t", "x", none, none, none⟩,
         ⟨"N11", "t", "x", none, none, none⟩]).length = 10 := by
  refine ⟨?_, ?_, ?_, ?_, by decide⟩
  · exact List.length_take_le 10 _
  · rw [top_namespaces, List.length_take, List.length_insertionSort]
  · exact List.Pairwise.sublist (List.take_sublist 10 _)
      (List.sorted_insertionSort countDescRel _)
  · intro c
    have hfix : ∀ x ∈ (countsOf (aliases.map (·.namespace_))).filter
        (fun p => p.2 == c), countDescRel x x ∧ x.2 = c := by
      intro x hx
      have := (List.mem_filter.mp hx).2
      simp only [beq_iff_eq] at this
      exact ⟨le_refl _, this⟩
    have hpair : ((countsOf (aliases.map (·.namespace_))).filter
        (fun p => p.2 == c)).Pairwise countDescRel := by
      refine List.pairwise_of_forall_mem_list ?_
      intro a ha b hb
      have h1 := (hfix a ha).2
      have h2 := (hfix b hb).2
      show b.2 ≤ a.2
      omega
    have h1 : List.Sublist
        ((countsOf (aliases.map (·.namespace_))).filter (fun p => p.2 == c))
        (List.insertionSort countDescRel (countsOf (aliases.map (·.namespace_)))) :=
      List.sublist_insertionSort hpair (List.filter_sublist _)
    have h2 : ((countsOf (aliases.map (·.namespace_))).filter
          (fun p => p.2 == c)).filter (fun p => p.2 == c) =
        (countsOf (aliases.map (·.namespace_))).filter (fun p => p.2 == c) := by
      refine List.filter_eq_self.mpr ?_
      intro a ha
      exact (List.mem_filter.mp ha).2
    have h3 : List.Sublist
        ((countsOf (aliases.map (·.namespace_))).filter (fun p => p.2 == c))
        ((List.insertionSort countDescRel
          (countsOf (aliases.map (·.namespace_)))).filter (fun p => p.2 == c)) := by
      have := h1.filter (fun p => p.2 == c)
      rwa [h2] at this
    have hperm : List.Perm
        ((List.insertionSort countDescRel
          (countsOf (aliases.map (·.namespace_)))).filter (fun p => p.2 == c))
        ((countsOf (aliases.map (·.namespace_))).filter (fun p => p.2 == c)) :=
      (List.perm_insertionSort countDescRel _).filter _
    have heq : (List.insertionSort countDescRel
          (countsOf (aliases.map (·.namespace_)))).filter (fun p => p.2 == c) =
        (countsOf (aliases.map (·.namespace_))).filter (fun p => p.2 == c) :=
      ((h3.eq_of_length hperm.length_eq.symm).symm)
    rw [top_namespaces]
    have h4 : List.Sublist
        (((List.insertionSort countDescRel
          (countsOf (aliases.map (·.namespace_)))).take 10).filter (fun p => p.2 == c))
        ((List.insertionSort countDescRel
          (countsOf (aliases.map (·.namespace_)))).filter (fun p => p.2 == c)) :=
      (List.take_sublist 10 _).filter _
    rw [heq] at h4
    exact h4

/-- Witness for `search_filter_semantics`: an empty query with no
namespace filter returns the one-alias list unchanged. -/
theorem search_filter_semantics_witness :
    search_aliases [⟨"Microsoft.Compute", "virtualMachines", "imageId", none, none, none⟩]
      "" none =
      [⟨"Microsoft.Compute", "virtualMachines", "imageId", none, none, none⟩] :=
  (search_filter_semantics
    [⟨"Microsoft.Compute", "virtualMachines", "imageId", none, none, none⟩] "vm" none).1

/-- Witness for `top_namespaces_spec` at a one-alias list. -/
theorem top_namespaces_spec_witness :
    (top_namespaces [⟨"A", "t", "x", none, none, none⟩]).length ≤ 10 :=
  (top_namespaces_spec [⟨"A", "t", "x", none, none, none⟩]).1
